import Mathlib

/-!
Verification development for the blockchain access layer of
mcp-ethers-server: a shallow embedding of the EthersService class
(src/index.ts, with the older variant in src/services/ethersService.ts)
and of the exact fixed-point unit conversion it delegates to, together
with theorems settling the specified properties.

Machine integers of the source (JavaScript bigint) are modelled as
Int/Nat; strings as Lean String (a list of characters); thrown
exceptions as Except/Option results; network activity as oracles plus
an explicit count or trace of invocations.
-/

set_option maxRecDepth 100000

/-! ## Characters and decimal digit strings -/

/-- Decision of the regex character class `[0-9]`. -/
def isDigitC (c : Char) : Bool := '0' ≤ c && c ≤ '9'

/-- Decision of the regex character class `[a-fA-F0-9]` used by
addressSchema (src/index.ts:21). -/
def isHexC (c : Char) : Bool :=
  ('0' ≤ c && c ≤ '9') || ('a' ≤ c && c ≤ 'f') || ('A' ≤ c && c ≤ 'F')

/-- Numeric value of a decimal digit character. -/
def toDigit (c : Char) : Nat := c.toNat - 48

/-- Most-significant-first decimal digit characters of `n`, with `fuel`
bounding the recursion (any `fuel ≥ n` is enough). -/
def natDCharsAux : Nat → Nat → List Char
  | 0, _ => []
  | fuel + 1, n =>
    if n = 0 then [] else natDCharsAux fuel (n / 10) ++ [Nat.digitChar (n % 10)]

/-- Decimal rendering of a natural number: the digit characters of `n`,
most significant first, with no leading zeros ("0" for zero). This is
the JavaScript `toString` of a nonnegative bigint. -/
def natDChars (n : Nat) : List Char := if n = 0 then ['0'] else natDCharsAux n n

/-- Value of a most-significant-first list of decimal digit characters,
as `BigInt` reads a digit string. -/
def digitsVal (l : List Char) : Nat := l.foldl (fun a c => a * 10 + toDigit c) 0

/-- Decimal rendering of an arbitrary-precision integer (JavaScript
bigint `toString`). -/
def intDecimal (i : Int) : String :=
  if i < 0 then String.mk ('-' :: natDChars i.natAbs) else String.mk (natDChars i.natAbs)

theorem digitsVal_append_singleton (l : List Char) (c : Char) :
    digitsVal (l ++ [c]) = digitsVal l * 10 + toDigit c := by
  simp [digitsVal, List.foldl_append]

theorem digitsVal_replicate_zero_append (k : Nat) (l : List Char) :
    digitsVal (List.replicate k '0' ++ l) = digitsVal l := by
  induction k with
  | zero => rfl
  | succ k ih =>
    simpa [List.replicate_succ, digitsVal, toDigit] using ih

theorem toDigit_digitChar {m : Nat} (h : m < 10) : toDigit (Nat.digitChar m) = m := by
  interval_cases m <;> decide

theorem isDigitC_digitChar {m : Nat} (h : m < 10) : isDigitC (Nat.digitChar m) = true := by
  interval_cases m <;> decide

theorem digitChar_ne_zero_char {m : Nat} (h1 : 0 < m) (h10 : m < 10) :
    Nat.digitChar m ≠ '0' := by
  interval_cases m <;> decide

theorem digitChar_ne_minus {m : Nat} (h10 : m < 10) : Nat.digitChar m ≠ '-' := by
  interval_cases m <;> decide

theorem digitChar_ne_dot {m : Nat} (h10 : m < 10) : Nat.digitChar m ≠ '.' := by
  interval_cases m <;> decide

theorem natDCharsAux_spec (fuel : Nat) : ∀ n : Nat, n ≤ fuel →
    digitsVal (natDCharsAux fuel n) = n ∧
    (∀ c ∈ natDCharsAux fuel n, ∃ m, m < 10 ∧ c = Nat.digitChar m) ∧
    (n ≠ 0 → natDCharsAux fuel n ≠ []) ∧
    (∀ c, (natDCharsAux fuel n).head? = some c → c ≠ '0') := by
  induction fuel with
  | zero =>
    intro n hn
    have : n = 0 := Nat.le_zero.mp hn
    subst this
    refine ⟨rfl, by simp [natDCharsAux], by simp, by simp [natDCharsAux]⟩
  | succ fuel ih =>
    intro n hn
    by_cases h0 : n = 0
    · subst h0
      refine ⟨by simp [natDCharsAux, digitsVal], by simp [natDCharsAux], by simp,
        by simp [natDCharsAux]⟩
    · have hdiv : n / 10 ≤ fuel := by
        have : n / 10 < n := Nat.div_lt_self (Nat.pos_of_ne_zero h0) (by omega)
        omega
      obtain ⟨hval, hdig, hne, hhead⟩ := ih (n / 10) hdiv
      have hunfold : natDCharsAux (fuel + 1) n =
          natDCharsAux fuel (n / 10) ++ [Nat.digitChar (n % 10)] := by
        simp [natDCharsAux, h0]
      refine ⟨?_, ?_, ?_, ?_⟩
      · rw [hunfold, digitsVal_append_singleton, hval,
          toDigit_digitChar (Nat.mod_lt _ (by omega))]
        omega
      · intro c hc
        rw [hunfold, List.mem_append, List.mem_singleton] at hc
        rcases hc with hc | rfl
        · exact hdig c hc
        · exact ⟨n % 10, Nat.mod_lt _ (by omega), rfl⟩
      · intro _
        rw [hunfold]
        simp
      · intro c hc
        rw [hunfold] at hc
        by_cases hq : n / 10 = 0
        · have hrec : natDCharsAux fuel (n / 10) = [] := by
            cases fuel with
            | zero => rfl
            | succ fuel => simp [natDCharsAux, hq]
          rw [hrec, List.nil_append, List.head?_cons] at hc
          have hlt : n < 10 := (Nat.div_eq_zero_iff (by omega)).mp hq
          have hmod : n % 10 = n := Nat.mod_eq_of_lt hlt
          injection hc with hc
          subst hc
          exact digitChar_ne_zero_char (by omega) (by omega)
        · cases hrec : natDCharsAux fuel (n / 10) with
          | nil => exact absurd hrec (hne hq)
          | cons d ds =>
            rw [hrec, List.cons_append, List.head?_cons] at hc
            have hd : d = c := by injection hc
            subst hd
            exact hhead d (by rw [hrec]; rfl)

theorem natDChars_val (n : Nat) : digitsVal (natDChars n) = n := by
  unfold natDChars
  by_cases h : n = 0
  · simp [h, digitsVal, toDigit]
  · simp only [h, if_false]
    exact (natDCharsAux_spec n n le_rfl).1

theorem natDChars_digits (n : Nat) :
    ∀ c ∈ natDChars n, ∃ m, m < 10 ∧ c = Nat.digitChar m := by
  unfold natDChars
  by_cases h : n = 0
  · simp only [h, if_true]
    intro c hc
    rw [List.mem_singleton] at hc
    exact ⟨0, by omega, hc⟩
  · simp only [h, if_false]
    exact (natDCharsAux_spec n n le_rfl).2.1

theorem natDChars_all_digits (n : Nat) : ∀ c ∈ natDChars n, isDigitC c = true := by
  intro c hc
  obtain ⟨m, hm, rfl⟩ := natDChars_digits n c hc
  exact isDigitC_digitChar hm

theorem natDChars_ne_nil (n : Nat) : natDChars n ≠ [] := by
  unfold natDChars
  by_cases h : n = 0
  · simp [h]
  · simp only [h, if_false]
    exact (natDCharsAux_spec n n le_rfl).2.2.1 h

theorem natDChars_head_ne_zero (n : Nat) (hn : n ≠ 0) :
    ∀ c, (natDChars n).head? = some c → c ≠ '0' := by
  unfold natDChars
  simp only [hn, if_false]
  exact (natDCharsAux_spec n n le_rfl).2.2.2

/-! ## Exact fixed-point unit conversion

The service methods parseUnits/formatUnits/parseEther/formatEther
(src/index.ts:298-328) delegate to the ethers v6 library (package.json:
"ethers": "^6.0.0"), whose fixed-point conversion is pure integer
arithmetic over decimal strings. The library is not part of this
repository, so the algorithm is embedded here following the ethers v6
FixedNumber semantics that the spec describes ("converted to an exact
integer minimal-unit value using the relevant precision; conversion
must be exact - no floating-point arithmetic").

formatUnits(value, decimals) renders `value` minimal units as a decimal
string: render digits, left-pad with zeros to at least decimals+1
characters, insert the decimal point decimals places from the right,
then strip superfluous leading zeros (keeping one before the point) and
trailing fractional zeros (keeping one after the point). A decimals of
0 renders the plain integer. Values are bounded by the signed width-512
overflow check of FixedNumber.

parseUnits(value, decimals) matches the anchored pattern
sign? digits* dot? digits*, requires at least one digit, requires every
fractional digit beyond position `decimals` to be zero, pads/truncates
the fraction to exactly `decimals` digits, and reads the concatenated
digits as an exact integer, under the same width bound. -/

/-- Decision of the character test against `'0'` used by the
zero-stripping loops and the excess-fraction check. -/
def isZeroC (c : Char) : Bool := c = '0'

/-- One step of the zero-stripping loops of the ethers v6 fixed-point
toString: repeatedly drop a leading zero character whose successor is
not the decimal point. Applied to the reversed string it is the
trailing-zero strip. In the source the loop would also consume a
string of length at most 1, a case the callers never reach because the
string always contains a decimal point and a nonempty whole part. -/
def dropZeroRun : List Char → List Char
  | '0' :: c :: rest => if c = '.' then '0' :: c :: rest else dropZeroRun (c :: rest)
  | l => l

/-- Left zero-padding of the digit string to at least `d + 1`
characters (the while-prepend loop of the fixed-point toString). -/
def fmtPad (ds : List Char) (d : Nat) : List Char :=
  List.replicate (d + 1 - ds.length) '0' ++ ds

/-- Insertion of the decimal point `d` places from the right (the two
substring halves of the fixed-point toString). -/
def fmtPoint (s : List Char) (d : Nat) : List Char :=
  s.take (s.length - d) ++ '.' :: s.drop (s.length - d)

/-- Decimal rendering of `n` minimal units at `d` decimals (the toString
of ethers v6 FixedNumber on a nonnegative value). -/
def fmtCore (n : Nat) (d : Nat) : List Char :=
  if d = 0 then natDChars n
  else
    (dropZeroRun (dropZeroRun (fmtPoint (fmtPad (natDChars n) d) d)).reverse).reverse

/-- ethers v6 formatUnits with a numeric decimals argument: the decimal
string of `v` minimal units, or none when `v` overflows the signed
width-512 FixedNumber format (the checkValue assertion). -/
def formatUnitsCore (v : Int) (d : Nat) : Option String :=
  if v < -(2 ^ 511) ∨ 2 ^ 511 ≤ v then none
  else if v < 0 then some (String.mk ('-' :: fmtCore v.natAbs d))
  else some (String.mk (fmtCore v.natAbs d))

/-- The digits-dot-digits shape of the anchored FixedNumber.fromString
pattern after the optional sign: a run of digits, optionally followed
by a point and a second run of digits, and nothing else. Returns the
whole and fractional digit runs. -/
def spanDigits (l : List Char) : Option (List Char × List Char) :=
  match l.dropWhile isDigitC with
  | [] => some (l.takeWhile isDigitC, [])
  | '.' :: r => if r.all isDigitC then some (l.takeWhile isDigitC, r) else none
  | _ => none

/-- The optional leading minus sign of the FixedNumber.fromString
pattern: a leading `-` is consumed and recorded. -/
def signSplit (l : List Char) : Bool × List Char :=
  if l.head? = some '-' then (true, l.tail) else (false, l)

/-- ethers v6 parseUnits with a numeric decimals argument: the exact
minimal-unit integer denoted by the decimal string `s` at `d` decimals,
or none when the string does not match the pattern, has a nonzero
fractional digit beyond position `d` (the "too many decimals"
assertion), or overflows the signed width-512 format. -/
def parseUnitsCore (s : String) (d : Nat) : Option Int :=
  match spanDigits (signSplit s.data).2 with
  | none => none
  | some (w, f) =>
    if w.length + f.length = 0 then none
    else if (f.drop d).all isZeroC then
      let frac := (f ++ List.replicate (d - f.length) '0').take d
      let mag : Int := (digitsVal (w ++ frac) : Int)
      let v : Int := if (signSplit s.data).1 then -mag else mag
      if v < -(2 ^ 511) ∨ 2 ^ 511 ≤ v then none else some v
    else none

/-- ethers parseEther is parseUnits at 18 decimals (the native currency
precision); the service method parseEther (src/index.ts:306-312)
delegates to it. -/
def parseEtherM (s : String) : Option Int := parseUnitsCore s 18

/-- ethers formatEther is formatUnits at 18 decimals. -/
def formatEtherM (v : Int) : Option String := formatUnitsCore v 18

example : parseUnitsCore "1.5" 18 = some 1500000000000000000 := by decide
example : parseUnitsCore "1" 18 = some 1000000000000000000 := by decide
example : parseUnitsCore "0" 0 = some 0 := by decide
example : parseUnitsCore "" 18 = none := by decide
example : parseUnitsCore "-" 18 = none := by decide
example : parseUnitsCore "1.2.3" 6 = none := by decide
example : parseUnitsCore "-0.5" 6 = some (-500000) := by decide
example : parseUnitsCore "1.500" 2 = some 150 := by decide
example : parseUnitsCore "1.501" 2 = none := by decide
example : formatUnitsCore 1000000000000000000 18 = some "1.0" := by decide
example : formatUnitsCore 1500000000000000000 18 = some "1.5" := by decide
example : formatUnitsCore 5 0 = some "5" := by decide
example : formatUnitsCore 5 6 = some "0.000005" := by decide
example : formatUnitsCore (-15) 1 = some "-1.5" := by decide
example : formatUnitsCore 0 18 = some "0.0" := by decide

/-! ### Round-trip facts about the fixed-point conversion -/

theorem isDigitC_ne_minus {c : Char} (h : isDigitC c = true) : c ≠ '-' := by
  intro he
  subst he
  exact absurd h (by decide)

theorem isDigitC_ne_dot {c : Char} (h : isDigitC c = true) : c ≠ '.' := by
  intro he
  subst he
  exact absurd h (by decide)

theorem signSplit_no_minus (l : List Char) (h : ∀ c, l.head? = some c → c ≠ '-') :
    signSplit l = (false, l) := by
  unfold signSplit
  rw [if_neg]
  intro hc
  cases l with
  | nil => exact absurd hc (by simp)
  | cons a r =>
    rw [List.head?_cons] at hc
    exact h a rfl (by injection hc)

theorem takeWhile_append_cons {p : Char → Bool} (w : List Char) (x : Char) (f : List Char)
    (hw : ∀ c ∈ w, p c = true) (hx : p x = false) :
    (w ++ x :: f).takeWhile p = w := by
  induction w with
  | nil => simp [List.takeWhile_cons, hx]
  | cons a w ih =>
    have ha : p a = true := hw a (by simp)
    simp only [List.cons_append, List.takeWhile_cons, ha, if_true]
    rw [ih (fun c hc => hw c (by simp [hc]))]

theorem dropWhile_append_cons {p : Char → Bool} (w : List Char) (x : Char) (f : List Char)
    (hw : ∀ c ∈ w, p c = true) (hx : p x = false) :
    (w ++ x :: f).dropWhile p = x :: f := by
  induction w with
  | nil => simp [List.dropWhile_cons, hx]
  | cons a w ih =>
    have ha : p a = true := hw a (by simp)
    simp only [List.cons_append, List.dropWhile_cons, ha, if_true]
    exact ih (fun c hc => hw c (by simp [hc]))

theorem spanDigits_mid_dot (w f : List Char) (hw : ∀ c ∈ w, isDigitC c = true)
    (hf : ∀ c ∈ f, isDigitC c = true) : spanDigits (w ++ '.' :: f) = some (w, f) := by
  unfold spanDigits
  rw [dropWhile_append_cons w '.' f hw (by decide),
    takeWhile_append_cons w '.' f hw (by decide)]
  simp only []
  rw [if_pos (List.all_eq_true.mpr hf)]

theorem spanDigits_all_digits (l : List Char) (h : ∀ c ∈ l, isDigitC c = true) :
    spanDigits l = some (l, []) := by
  unfold spanDigits
  rw [List.dropWhile_eq_nil_iff.mpr h, List.takeWhile_eq_self_iff.mpr h]

theorem dropZeroRun_head_ne (l : List Char) (h : ∀ c, l.head? = some c → c ≠ '0') :
    dropZeroRun l = l := by
  unfold dropZeroRun
  split
  · exact absurd rfl (h '0' rfl)
  · rfl

theorem dropZeroRun_zero_dot (rest : List Char) :
    dropZeroRun ('0' :: '.' :: rest) = '0' :: '.' :: rest := by
  unfold dropZeroRun
  simp

theorem dropZeroRun_zero_cons (c : Char) (rest : List Char) (h : c ≠ '.') :
    dropZeroRun ('0' :: c :: rest) = dropZeroRun (c :: rest) := by
  conv_lhs => unfold dropZeroRun
  simp [h]

theorem dropZeroRun_append_dot (r w : List Char) (hr : ∀ c ∈ r, c ≠ '.') :
    dropZeroRun (r ++ '.' :: w) =
      (if r.dropWhile isZeroC = [] then (if r = [] then [] else ['0'])
       else r.dropWhile isZeroC) ++ '.' :: w := by
  induction r with
  | nil =>
    rw [List.nil_append, dropZeroRun_head_ne]
    · simp
    · intro c hc
      rw [List.head?_cons] at hc
      intro he
      subst he
      exact absurd hc (by decide)
  | cons a r ih =>
    by_cases ha : a = '0'
    · subst ha
      cases r with
      | nil =>
        rw [List.cons_append, List.nil_append, dropZeroRun_zero_dot]
        simp [isZeroC]
      | cons b r' =>
        have hb : b ≠ '.' := hr b (by simp)
        rw [List.cons_append, List.cons_append, dropZeroRun_zero_cons b _ hb,
          ← List.cons_append, ih (fun c hc => hr c (by simp [List.mem_cons] at hc ⊢; tauto))]
        have hz : isZeroC '0' = true := by decide
        simp only [List.dropWhile_cons, hz, if_true]
        have hbr : (b :: r' : List Char) ≠ [] := by simp
        by_cases hd : (b :: r').dropWhile isZeroC = []
        · simp [hd, hbr]
        · simp [hd, hbr]
    · have hz : isZeroC a = false := by
        unfold isZeroC
        simp [ha]
      rw [List.cons_append, dropZeroRun_head_ne]
      · simp only [List.dropWhile_cons, hz, if_false]
        simp
      · intro c hc
        rw [List.head?_cons] at hc
        intro he
        apply ha
        injection hc with hc
        rw [hc]
        exact he

/-- The trailing-fraction form produced by the trailing-zero strip of
the fixed-point toString: the fraction with its trailing zeros removed,
one zero kept when nothing else remains. -/
def trimTrailingZeros (f : List Char) : List Char :=
  if f.reverse.dropWhile isZeroC = [] then (if f.reverse = [] then [] else ['0'])
  else (f.reverse.dropWhile isZeroC).reverse

theorem isZeroC_eq {c : Char} (h : isZeroC c = true) : c = '0' := by
  unfold isZeroC at h
  exact of_decide_eq_true h

theorem trimTrailingZeros_ne_nil (f : List Char) (hf : f ≠ []) :
    trimTrailingZeros f ≠ [] := by
  unfold trimTrailingZeros
  have hrev : f.reverse ≠ [] := by
    simp [List.reverse_eq_nil_iff, hf]
  by_cases hz : f.reverse.dropWhile isZeroC = []
  · simp [hz, hrev]
  · simp [hz, List.reverse_eq_nil_iff]

theorem trimTrailingZeros_length_le (f : List Char) (hf : f ≠ []) :
    (trimTrailingZeros f).length ≤ f.length := by
  unfold trimTrailingZeros
  have h1 : 1 ≤ f.length := List.length_pos.mpr hf
  have hrev : f.reverse ≠ [] := by simp [List.reverse_eq_nil_iff, hf]
  by_cases hz : f.reverse.dropWhile isZeroC = []
  · simpa [hz, hrev] using h1
  · simp only [hz, if_false, List.length_reverse]
    calc (f.reverse.dropWhile isZeroC).length ≤ f.reverse.length :=
          (List.dropWhile_sublist _).length_le
      _ = f.length := List.length_reverse _

theorem trimTrailingZeros_mem (f : List Char) :
    ∀ c ∈ trimTrailingZeros f, c ∈ f ∨ c = '0' := by
  unfold trimTrailingZeros
  by_cases hz : f.reverse.dropWhile isZeroC = []
  · intro c hc
    by_cases hrev : f.reverse = []
    · simp [hz, hrev] at hc
    · simp only [hz, if_true, hrev, if_false] at hc
      rw [List.mem_singleton] at hc
      exact Or.inr hc
  · intro c hc
    simp only [hz, if_false, List.mem_reverse] at hc
    exact Or.inl (by
      rw [← List.mem_reverse]
      exact (List.dropWhile_sublist _).mem hc)

theorem trimTrailingZeros_recovery (f : List Char) (hf : f ≠ []) :
    trimTrailingZeros f ++
      List.replicate (f.length - (trimTrailingZeros f).length) '0' = f := by
  unfold trimTrailingZeros
  have hrev : f.reverse ≠ [] := by simp [List.reverse_eq_nil_iff, hf]
  have h1 : 1 ≤ f.length := List.length_pos.mpr hf
  by_cases hz : f.reverse.dropWhile isZeroC = []
  · have hall : ∀ c ∈ f, c = '0' := by
      intro c hc
      have := List.dropWhile_eq_nil_iff.mp hz c (List.mem_reverse.mpr hc)
      exact isZeroC_eq this
    have hrepl : f = List.replicate f.length '0' := List.eq_replicate_of_mem hall
    simp only [hz, if_true, hrev, if_false]
    calc ['0'] ++ List.replicate (f.length - 1) '0'
        = List.replicate (f.length - 1 + 1) '0' := by
          rw [List.replicate_succ]
          rfl
      _ = List.replicate f.length '0' := by
          congr 1
          omega
      _ = f := hrepl.symm
  · simp only [hz, if_false]
    have hsplit : f.reverse.takeWhile isZeroC ++ f.reverse.dropWhile isZeroC = f.reverse :=
      List.takeWhile_append_dropWhile isZeroC f.reverse
    have htake : f.reverse.takeWhile isZeroC =
        List.replicate (f.reverse.takeWhile isZeroC).length '0' :=
      List.eq_replicate_of_mem (fun c hc => isZeroC_eq (List.mem_takeWhile_imp hc))
    have hf2 : f = (f.reverse.dropWhile isZeroC).reverse ++
        (f.reverse.takeWhile isZeroC).reverse := by
      calc f = f.reverse.reverse := (List.reverse_reverse f).symm
        _ = (f.reverse.takeWhile isZeroC ++ f.reverse.dropWhile isZeroC).reverse := by
            rw [hsplit]
        _ = (f.reverse.dropWhile isZeroC).reverse ++
            (f.reverse.takeWhile isZeroC).reverse := by
            rw [List.reverse_append]
    have hlen : f.length - ((f.reverse.dropWhile isZeroC).reverse).length =
        (f.reverse.takeWhile isZeroC).length := by
      have := congrArg List.length hsplit
      simp only [List.length_append, List.length_reverse] at this ⊢
      omega
    rw [hlen]
    conv_rhs => rw [hf2]
    congr 1
    have hrevrepl : (f.reverse.takeWhile isZeroC).reverse =
        List.replicate (f.reverse.takeWhile isZeroC).length '0' := by
      conv_lhs => rw [htake]
      rw [List.reverse_replicate]
    rw [hrevrepl]

theorem data_mk (l : List Char) : (String.mk l).data = l := rfl

theorem head_digit_ne_minus (l : List Char) (hl : ∀ c ∈ l, isDigitC c = true) :
    ∀ c, l.head? = some c → c ≠ '-' := by
  intro c hc
  cases l with
  | nil => exact absurd hc (by simp)
  | cons a t =>
    rw [List.head?_cons] at hc
    have ha : a = c := by injection hc
    subst ha
    exact isDigitC_ne_minus (hl a (List.mem_cons_self a t))

theorem reverse_append_dot (a b : List Char) :
    (a ++ '.' :: b).reverse = b.reverse ++ '.' :: a.reverse := by
  rw [List.reverse_append, List.reverse_cons, List.append_assoc, List.singleton_append]

theorem fmtPad_length (ds : List Char) (d : Nat) :
    (fmtPad ds d).length = max (d + 1) ds.length := by
  unfold fmtPad
  simp only [List.length_append, List.length_replicate]
  omega

theorem fmtPad_all_digits (n d : Nat) :
    ∀ c ∈ fmtPad (natDChars n) d, isDigitC c = true := by
  intro c hc
  unfold fmtPad at hc
  rw [List.mem_append] at hc
  rcases hc with hc | hc
  · rw [List.eq_of_mem_replicate hc]
    decide
  · exact natDChars_all_digits n c hc

theorem fmt_strip_eq (W F : List Char)
    (hFdig : ∀ c ∈ F, isDigitC c = true)
    (hW : W = ['0'] ∨ (∀ c, W.head? = some c → c ≠ '0'))
    (hWne : W ≠ []) (hFne : F ≠ []) :
    (dropZeroRun (dropZeroRun (W ++ '.' :: F)).reverse).reverse =
      W ++ '.' :: trimTrailingZeros F := by
  have hFrev : F.reverse ≠ [] := by simp [List.reverse_eq_nil_iff, hFne]
  have hstep1 : dropZeroRun (W ++ '.' :: F) = W ++ '.' :: F := by
    rcases hW with hW | hW
    · rw [hW, List.singleton_append]
      exact dropZeroRun_zero_dot F
    · apply dropZeroRun_head_ne
      intro c hc
      obtain ⟨a, t, hat⟩ := List.exists_cons_of_ne_nil hWne
      rw [hat, List.cons_append, List.head?_cons] at hc
      have ha : a = c := by injection hc
      subst ha
      exact hW a (by rw [hat]; rfl)
  rw [hstep1, reverse_append_dot,
    dropZeroRun_append_dot F.reverse W.reverse
      (fun c hc => isDigitC_ne_dot (hFdig c (List.mem_reverse.mp hc)))]
  by_cases hz : F.reverse.dropWhile isZeroC = []
  · rw [if_pos hz, if_neg hFrev, reverse_append_dot, List.reverse_reverse]
    unfold trimTrailingZeros
    rw [if_pos hz, if_neg hFrev]
    rfl
  · rw [if_neg hz, reverse_append_dot, List.reverse_reverse]
    unfold trimTrailingZeros
    rw [if_neg hz]

theorem fmtCore_pos_eq (n d : Nat) (hd : d ≠ 0) :
    fmtCore n d =
      (fmtPad (natDChars n) d).take ((fmtPad (natDChars n) d).length - d) ++
        '.' :: trimTrailingZeros
          ((fmtPad (natDChars n) d).drop ((fmtPad (natDChars n) d).length - d)) := by
  have hD1 : 1 ≤ (natDChars n).length := List.length_pos.mpr (natDChars_ne_nil n)
  have hs0len : (fmtPad (natDChars n) d).length = max (d + 1) (natDChars n).length :=
    fmtPad_length _ d
  have hFlen : ((fmtPad (natDChars n) d).drop ((fmtPad (natDChars n) d).length - d)).length
      = d := by
    rw [List.length_drop]
    omega
  have hFne : (fmtPad (natDChars n) d).drop ((fmtPad (natDChars n) d).length - d) ≠ [] := by
    apply List.ne_nil_of_length_pos
    omega
  have hFdig : ∀ c ∈ (fmtPad (natDChars n) d).drop ((fmtPad (natDChars n) d).length - d),
      isDigitC c = true :=
    fun c hc => fmtPad_all_digits n d c (List.drop_subset _ _ hc)
  have hWlen : ((fmtPad (natDChars n) d).take ((fmtPad (natDChars n) d).length - d)).length
      = (fmtPad (natDChars n) d).length - d := by
    rw [List.length_take]
    omega
  have hWne : (fmtPad (natDChars n) d).take ((fmtPad (natDChars n) d).length - d) ≠ [] := by
    apply List.ne_nil_of_length_pos
    omega
  have hW : (fmtPad (natDChars n) d).take ((fmtPad (natDChars n) d).length - d) = ['0'] ∨
      (∀ c, ((fmtPad (natDChars n) d).take
        ((fmtPad (natDChars n) d).length - d)).head? = some c → c ≠ '0') := by
    by_cases hcase : (natDChars n).length ≤ d
    · left
      obtain ⟨k, hk⟩ : ∃ k, d + 1 - (natDChars n).length = k + 1 :=
        ⟨d - (natDChars n).length, by omega⟩
      have hidx : (fmtPad (natDChars n) d).length - d = 1 := by omega
      rw [hidx]
      unfold fmtPad
      rw [hk, List.replicate_succ, List.cons_append]
      rfl
    · right
      have hn0 : n ≠ 0 := by
        intro h0
        rw [h0] at hcase
        exact hcase (by unfold natDChars; simp; omega)
      have hpad0 : d + 1 - (natDChars n).length = 0 := by omega
      have hs0D : fmtPad (natDChars n) d = natDChars n := by
        unfold fmtPad
        rw [hpad0]
        rfl
      intro c hc
      rw [hs0D] at hc
      obtain ⟨a, t, hat⟩ := List.exists_cons_of_ne_nil (natDChars_ne_nil n)
      obtain ⟨m, hm⟩ : ∃ m, (natDChars n).length - d = m + 1 :=
        ⟨(natDChars n).length - d - 1, by omega⟩
      rw [hm, hat, List.take_succ_cons, List.head?_cons] at hc
      have ha : a = c := by injection hc
      subst ha
      exact natDChars_head_ne_zero n hn0 a (by rw [hat]; rfl)
  unfold fmtCore fmtPoint
  rw [if_neg hd]
  exact fmt_strip_eq _ _ hFdig hW hWne hFne

theorem parseUnitsCore_eval (l : List Char) (d : Nat) (w f : List Char)
    (hsign : ∀ c, l.head? = some c → c ≠ '-')
    (hspan : spanDigits l = some (w, f))
    (hne : w.length + f.length ≠ 0)
    (hfd : (f.drop d).all isZeroC = true)
    (hbound : (digitsVal (w ++ (f ++ List.replicate (d - f.length) '0').take d) : Int)
      < 2 ^ 511) :
    parseUnitsCore (String.mk l) d =
      some ((digitsVal (w ++ (f ++ List.replicate (d - f.length) '0').take d) : Int)) := by
  unfold parseUnitsCore
  rw [data_mk, signSplit_no_minus l hsign]
  show (match spanDigits l with
    | none => none
    | some (w, f) =>
      if w.length + f.length = 0 then none
      else if (f.drop d).all isZeroC then
        let frac := (f ++ List.replicate (d - f.length) '0').take d
        let mag : Int := (digitsVal (w ++ frac) : Int)
        let v : Int := if (false : Bool) then -mag else mag
        if v < -(2 ^ 511) ∨ 2 ^ 511 ≤ v then none else some v
      else none) = _
  rw [hspan]
  show (if w.length + f.length = 0 then none
    else if (f.drop d).all isZeroC then
      let frac := (f ++ List.replicate (d - f.length) '0').take d
      let mag : Int := (digitsVal (w ++ frac) : Int)
      let v : Int := if (false : Bool) then -mag else mag
      if v < -(2 ^ 511) ∨ 2 ^ 511 ≤ v then none else some v
    else none) = _
  rw [if_neg hne, if_pos hfd]
  show (if (digitsVal (w ++ (f ++ List.replicate (d - f.length) '0').take d) : Int)
        < -(2 ^ 511) ∨
      (2 ^ 511 : Int) ≤ (digitsVal (w ++ (f ++ List.replicate (d - f.length) '0').take d) : Int)
    then none else some ((digitsVal (w ++ (f ++ List.replicate (d - f.length) '0').take d) : Int))) = _
  rw [if_neg]
  push_neg
  refine ⟨?_, hbound⟩
  have h0 : (0 : Int) ≤ (digitsVal (w ++ (f ++ List.replicate (d - f.length) '0').take d) : Int) :=
    Int.natCast_nonneg _
  have hp : (0 : Int) < 2 ^ 511 := by positivity
  omega

theorem formatUnits_parseUnits_exact (d : Nat) (v : Nat) (h : v < 2 ^ 511) :
    (formatUnitsCore (v : Int) d).bind (fun s => parseUnitsCore s d) = some (v : Int) := by
  have hvc : ((v : Int)) < 2 ^ 511 := by exact_mod_cast h
  have h0 : (0 : Int) ≤ (v : Int) := Int.natCast_nonneg v
  have hp : (0 : Int) < 2 ^ 511 := by positivity
  have hb1 : ¬ ((v : Int) < -(2 ^ 511) ∨ (2 ^ 511 : Int) ≤ (v : Int)) := by
    push_neg
    exact ⟨by omega, hvc⟩
  have hvnn : ¬ ((v : Int) < 0) := not_lt.mpr h0
  have habs : ((v : Int)).natAbs = v := Int.natAbs_ofNat v
  unfold formatUnitsCore
  rw [if_neg hb1, if_neg hvnn]
  show parseUnitsCore (String.mk (fmtCore ((v : Int)).natAbs d)) d = some (v : Int)
  rw [habs]
  by_cases hd : d = 0
  · subst hd
    have hfmt : fmtCore v 0 = natDChars v := by
      unfold fmtCore
      rw [if_pos rfl]
    rw [hfmt]
    have hval : digitsVal (natDChars v ++
        (([] : List Char) ++ List.replicate (0 - ([] : List Char).length) '0').take 0) = v := by
      simp [natDChars_val]
    rw [parseUnitsCore_eval (natDChars v) 0 (natDChars v) []
      (head_digit_ne_minus _ (natDChars_all_digits v))
      (spanDigits_all_digits _ (natDChars_all_digits v))
      (by
        have h1 := List.length_pos.mpr (natDChars_ne_nil v)
        simp only [List.length_nil]
        omega)
      (by simp)
      (by rw [hval]; exact hvc)]
    rw [hval]
  · rw [fmtCore_pos_eq v d hd]
    have hD1 : 1 ≤ (natDChars v).length := List.length_pos.mpr (natDChars_ne_nil v)
    have hs0len : (fmtPad (natDChars v) d).length = max (d + 1) (natDChars v).length :=
      fmtPad_length _ d
    set s0 := fmtPad (natDChars v) d with hs0
    set W := s0.take (s0.length - d) with hWdef
    set F := s0.drop (s0.length - d) with hFdef
    have hFlen : F.length = d := by
      rw [hFdef, List.length_drop]
      omega
    have hFne : F ≠ [] := List.ne_nil_of_length_pos (by omega)
    have hWlen : W.length = s0.length - d := by
      rw [hWdef, List.length_take]
      omega
    have hWne : W ≠ [] := List.ne_nil_of_length_pos (by omega)
    have hs0dig : ∀ c ∈ s0, isDigitC c = true := by
      rw [hs0]
      exact fmtPad_all_digits v d
    have hWdig : ∀ c ∈ W, isDigitC c = true := fun c hc => hs0dig c (List.take_subset _ _ hc)
    have hFdig : ∀ c ∈ F, isDigitC c = true := fun c hc => hs0dig c (List.drop_subset _ _ hc)
    have hFtdig : ∀ c ∈ trimTrailingZeros F, isDigitC c = true := by
      intro c hc
      rcases trimTrailingZeros_mem F c hc with hm | hm
      · exact hFdig c hm
      · subst hm
        decide
    have hFtlen : (trimTrailingZeros F).length ≤ d := by
      have := trimTrailingZeros_length_le F hFne
      omega
    have hrecov : trimTrailingZeros F ++
        List.replicate (d - (trimTrailingZeros F).length) '0' = F := by
      have := trimTrailingZeros_recovery F hFne
      rw [hFlen] at this
      exact this
    have hfrac : (trimTrailingZeros F ++
        List.replicate (d - (trimTrailingZeros F).length) '0').take d = F := by
      rw [hrecov, ← hFlen]
      exact List.take_length F
    have hWF : W ++ F = s0 := List.take_append_drop _ _
    have hvalue : digitsVal (W ++ F) = v := by
      rw [hWF, hs0]
      unfold fmtPad
      rw [digitsVal_replicate_zero_append, natDChars_val]
    have hsign : ∀ c, (W ++ '.' :: trimTrailingZeros F).head? = some c → c ≠ '-' := by
      intro c hc
      obtain ⟨a, t, hat⟩ := List.exists_cons_of_ne_nil hWne
      rw [hat, List.cons_append, List.head?_cons] at hc
      have ha : a = c := by injection hc
      subst ha
      exact isDigitC_ne_minus (hWdig a (by rw [hat]; exact List.mem_cons_self a t))
    rw [parseUnitsCore_eval (W ++ '.' :: trimTrailingZeros F) d W (trimTrailingZeros F)
      hsign
      (spanDigits_mid_dot W (trimTrailingZeros F) hWdig hFtdig)
      (by have := List.length_pos.mpr hWne; omega)
      (by rw [List.drop_eq_nil_of_le hFtlen]; rfl)
      (by rw [hfrac, hvalue]; exact hvc)]
    rw [hfrac, hvalue]

/-! ## JavaScript values and the two serializers

serializeValue (src/index.ts:98-114) renders any value as one string
for error details; serializeEventArgs (src/index.ts:783-799) rewrites a
decoded result/event-argument structure in place, turning bigints into
decimal strings and dropping internal keys. -/

/-- A finite tree model of the JavaScript values the service
serializes: undefined, null, bigint, string, boolean, array, and plain
object as an ordered field list together with the text a toJSON method
would return when the object has one. JavaScript numbers are not
touched by any claim and are omitted; values reaching the serializers
are finite and acyclic. -/
inductive JSValue where
  | undef : JSValue
  | nullv : JSValue
  | big : Int → JSValue
  | str : String → JSValue
  | boolean : Bool → JSValue
  | arr : List JSValue → JSValue
  | obj : List (String × JSValue) → Option String → JSValue

/-- JSON escaping of one character (quote and backslash; other control
escapes are elided, no claim depends on them). -/
def jsonEscape (c : Char) : List Char :=
  if c = '"' ∨ c = '\\' then ['\\', c] else [c]

/-- A JSON string literal. -/
def jsonQuote (s : String) : String :=
  "\"" ++ String.mk (s.data.foldr (fun c acc => jsonEscape c ++ acc) []) ++ "\""

mutual
/-- JSON.stringify with the bigint replacer of serializeValue
(src/index.ts:109-111): a bigint becomes its decimal text as a JSON
string, undefined is dropped from objects and is not a JSON value at
top level, an object with a toJSON method contributes that text. -/
def jsonStringify : JSValue → Option String
  | .undef => none
  | .nullv => some "null"
  | .big i => some (jsonQuote (intDecimal i))
  | .str s => some (jsonQuote s)
  | .boolean b => some (if b then "true" else "false")
  | .arr xs => some ("[" ++ String.intercalate "," (jsonStringifyList xs) ++ "]")
  | .obj _ (some t) => some (jsonQuote t)
  | .obj fs none =>
    some ("\x7b" ++ String.intercalate "," (jsonStringifyFields fs) ++ "\x7d")

def jsonStringifyList : List JSValue → List String
  | [] => []
  | x :: xs => ((jsonStringify x).getD "null") :: jsonStringifyList xs

def jsonStringifyFields : List (String × JSValue) → List String
  | [] => []
  | (k, x) :: xs =>
    match jsonStringify x with
    | none => jsonStringifyFields xs
    | some sx => (jsonQuote k ++ ":" ++ sx) :: jsonStringifyFields xs
end

mutual
/-- serializeValue (src/index.ts:98-114): undefined and null render as
their names, a bigint as its exact decimal text, an array as the
bracketed comma-joined recursive serialization of its elements, an
object through its toJSON method when it has one and through
JSON.stringify with the bigint replacer otherwise, and any other
scalar through String(value). Total by construction: every value
yields one string and no case raises. -/
def serializeValue : JSValue → String
  | .undef => "undefined"
  | .nullv => "null"
  | .big i => intDecimal i
  | .arr xs => "[" ++ String.intercalate ", " (serializeValueList xs) ++ "]"
  | .obj _ (some t) => t
  | .obj fs none => (jsonStringify (JSValue.obj fs none)).getD "undefined"
  | .str s => s
  | .boolean b => if b then "true" else "false"

def serializeValueList : List JSValue → List String
  | [] => []
  | x :: xs => serializeValue x :: serializeValueList xs
end

/-- The keys serializeEventArgs silently drops from every object
(src/index.ts:793); the companion condition on the key "length" is
guarded by Array.isArray on a value already handled by the array branch
and so never fires. -/
def droppedKey (k : String) : Bool :=
  k = "_isBigNumber" || k = "type" || k = "hash"

mutual
/-- serializeEventArgs (src/index.ts:783-799): null and undefined kept,
bigints replaced by their decimal text, arrays mapped recursively,
objects rebuilt as plain objects keeping entry order, dropping every
entry whose key is one of the internal keys and recursing on the rest;
other scalars kept. -/
def serializeEventArgs : JSValue → JSValue
  | .undef => .undef
  | .nullv => .nullv
  | .big i => .str (intDecimal i)
  | .arr xs => .arr (serializeEventArgsList xs)
  | .obj fs _ => .obj (serializeEventArgsFields fs) none
  | .str s => .str s
  | .boolean b => .boolean b

def serializeEventArgsList : List JSValue → List JSValue
  | [] => []
  | x :: xs => serializeEventArgs x :: serializeEventArgsList xs

def serializeEventArgsFields : List (String × JSValue) → List (String × JSValue)
  | [] => []
  | (k, x) :: xs =>
    if droppedKey k then serializeEventArgsFields xs
    else (k, serializeEventArgs x) :: serializeEventArgsFields xs
end

/-- Property access `v[k]` on an object value: the first field with the
given key. -/
def objLookup (v : JSValue) (k : String) : Option JSValue :=
  match v with
  | .obj fs _ => (fs.find? (fun kv => kv.1 = k)).map (fun kv => kv.2)
  | _ => none

theorem serializeValueList_eq_map (xs : List JSValue) :
    serializeValueList xs = xs.map serializeValue := by
  induction xs with
  | nil => rfl
  | cons x xs ih => simp [serializeValueList, ih]

theorem serializeEventArgsList_eq_map (xs : List JSValue) :
    serializeEventArgsList xs = xs.map serializeEventArgs := by
  induction xs with
  | nil => rfl
  | cons x xs ih => simp [serializeEventArgsList, ih]

theorem serializeEventArgsFields_find_dropped (fs : List (String × JSValue))
    (k : String) (hk : droppedKey k = true) :
    (serializeEventArgsFields fs).find? (fun kv => kv.1 = k) = none := by
  induction fs with
  | nil => rfl
  | cons kv fs ih =>
    obtain ⟨k0, x0⟩ := kv
    by_cases hk0 : droppedKey k0
    · simp only [serializeEventArgsFields]
      rw [if_pos hk0]
      exact ih
    · simp only [serializeEventArgsFields]
      rw [if_neg hk0, List.find?_cons_of_neg]
      · exact ih
      · simp only [decide_eq_true_eq]
        intro he
        rw [he] at hk0
        exact hk0 hk

/-! ## Error normalization

handleProviderError (src/index.ts:79-96) turns any caught failure into
exactly one thrown Error; the embedding returns the message of that one
error. A caught JavaScript value is modelled by the features the
classifier reads: whether it is a ZodError (and its issue messages),
whether it is an Error instance carrying a code property, its message,
and its String(error) rendering (used when the message is absent or
empty, both falsy). -/

structure JSErrorVal where
  isZodError : Bool
  zodIssues : List String
  isErrorInstance : Bool
  hasCodeProp : Bool
  message : String
  strForm : String

/-- The optional " Details: k=v, ..." suffix of the generic branch
(src/index.ts:94), each value rendered by serializeValue. -/
def detailsSuffix (details : Option (List (String × JSValue))) : String :=
  match details with
  | none => ""
  | some kvs =>
    " Details: " ++
      String.intercalate ", " (kvs.map (fun kv => kv.1 ++ "=" ++ serializeValue kv.2))

/-- The fixed text appended to the validation branch message. -/
def zodExpectedSuffix : String :=
  ". Expected a valid Ethereum address (0x followed by 40 hexadecimal characters)"

/-- handleProviderError (src/index.ts:79-96): (1) a ZodError renders
"Invalid input format: " plus the first issue message (with a default
when it is absent or empty) plus a fixed expectation text; (2) an Error
instance with a code property renders "Failed to <context>: Provider
error: <message>"; (3) anything else renders "Failed to <context>:
<message>" with the optional details suffix, falling back to
String(error) when the message is empty. Every branch throws exactly
one error, whose message this function returns. -/
def handleProviderError (e : JSErrorVal) (context : String)
    (details : Option (List (String × JSValue))) : String :=
  if e.isZodError then
    "Invalid input format: " ++
      (if e.zodIssues.head?.getD "" = "" then "Invalid input format"
       else e.zodIssues.head?.getD "") ++ zodExpectedSuffix
  else if e.isErrorInstance && e.hasCodeProp then
    "Failed to " ++ context ++ ": Provider error: " ++ e.message
  else
    "Failed to " ++ context ++ ": " ++
      (if e.message = "" then e.strForm else e.message) ++ detailsSuffix details

/-- The ZodError thrown by addressSchema.parse on a malformed address:
the default issue message of a zod regex validator is "Invalid". -/
def zodAddressError : JSErrorVal :=
  { isZodError := true, zodIssues := ["Invalid"], isErrorInstance := true,
    hasCodeProp := false, message := "", strForm := "" }

/-- A plain JavaScript Error with the given message and no code
property (what `new Error(msg)` produces and what a rethrown wrapped
error is). -/
def plainError (msg : String) : JSErrorVal :=
  { isZodError := false, zodIssues := [], isErrorInstance := true,
    hasCodeProp := false, message := msg, strForm := "Error: " ++ msg }

/-! ## Network and provider resolution

Two generations of getProvider exist in the sources: the Alchemy-based
one of src/index.ts:120-164 (with a chain-id hint) and the
Infura-based one of src/services/ethersService.ts:86-115. Connections
are modelled by the construction the code performs; network activity
begins only when a provider method is invoked, which the operation
models count separately. -/

/-- Environment configuration as consumed (process.env). -/
structure Env where
  alchemyKey : Option String
  infuraKey : Option String
  privateKey : Option String
deriving DecidableEq

/-- A connection handle as the code constructs it. -/
inductive Provider where
  | defaultProvider : Provider
  | alchemy : String → Option String → Provider
  | infura : String → String → Provider
  | jsonRpc : String → Provider
deriving DecidableEq

/-- The networkToEthersMap table (src/index.ts:23-34). -/
def networkToEthersMap : List (String × String) :=
  [("Ethereum", "mainnet"), ("Polygon PoS", "matic"), ("Arbitrum", "arbitrum"),
   ("Arbitrum Nova", "arbitrum-nova"), ("Optimism", "optimism"),
   ("Avalanche C-Chain", "avalanche"), ("Base", "base"),
   ("BNB Smart Chain", "bnb"), ("Linea", "linea"),
   ("Polygon zkEVM", "polygon-zkevm")]

/-- The toLowerCase call of getEthersNetworkName, character by
character (the ASCII lowering JavaScript performs on every name
involved). -/
def toLowerStr (s : String) : String := String.mk (s.data.map Char.toLower)

/-- getEthersNetworkName (src/index.ts:116-118): the mapped ethers name
or the lowercased input. -/
def getEthersNetworkName (network : String) : String :=
  match networkToEthersMap.find? (fun p => p.1 = network) with
  | some p => p.2
  | none => toLowerStr network

/-- validateRpcUrl (src/index.ts:73-77): the regex
`^https?:\/\/.+$` - an http:// or https:// scheme followed by at least
one character (the regex dot does not match a newline; URLs containing
one are outside every claim and not modelled). -/
def validRpcUrl (url : String) : Bool :=
  (url.startsWith "http://" && url.length > 7) ||
    (url.startsWith "https://" && url.length > 8)

/-- The invalid-RPC-URL message thrown by validateRpcUrl. -/
def invalidRpcUrlMsg (url : String) : String :=
  "Invalid RPC URL format: " ++ url ++
    ". URL must start with http:// or https:// and include a valid domain."

/-- The invalid-provider message (src/index.ts:159-163 and
src/services/ethersService.ts:110-114), listing the supported network
names. -/
def invalidProviderMsg (defaults : List String) (p : String) : String :=
  "Invalid provider: " ++ p ++ ". Must be either:\n" ++
    "1. A supported network name (" ++ String.intercalate ", " defaults ++ ")\n" ++
    "2. A valid RPC URL starting with http:// or https://"

/-- The non-fatal warning record of getProvider: console.warn on a
chain-id mismatch (src/index.ts:133 and 150). -/
inductive Warning where
  | chainIdMismatch : Nat → Nat → Warning
deriving DecidableEq

/-- The chain-id mismatch check of src/index.ts:130-135 and 147-152:
run only when the hint is truthy (a chainId of 0 is falsy in
JavaScript and skips the check), warn when the connection reports a
truthy chain id different from the hint, and in every case keep the
connection as constructed. `reported` stands for the
`(newProvider as any)._network?.chainId` readback, which lives inside
the ethers library; in the source the comparison is a strict `!==`
between that value and the hint. -/
def chainIdWarnings (reported : Option Nat) (chainId : Option Nat) : List Warning :=
  match chainId with
  | none => []
  | some c =>
    if c ≠ 0 then
      match reported with
      | some a => if a ≠ 0 ∧ a ≠ c then [Warning.chainIdMismatch c a] else []
      | none => []
    else []

/-- getProvider of src/index.ts:120-164. `defaults` stands for
DEFAULT_PROVIDERS imported from src/config/networks.js, a module that
is not among the sources; `reportedChainId` stands for the chain id a
constructed connection reports for an ethers network name (the ethers
library internals the mismatch check reads). An identifier in the
supported list constructs an AlchemyProvider from the mapped network
name and process.env.ALCHEMY_API_KEY, whether or not that key is
present - the construction itself does not fail on a missing key (the
ethers AlchemyProvider falls back to a shared default key), and no
check of the key is made on this path. -/
def getProviderAlchemy (defaults : List String) (reportedChainId : String → Option Nat)
    (env : Env) (instProvider : Provider)
    (provider : Option String) (chainId : Option Nat) :
    Except String Provider × List Warning :=
  match provider with
  | none => (.ok instProvider, [])
  | some p =>
    if p ∈ defaults then
      let networkName := getEthersNetworkName p
      (.ok (Provider.alchemy networkName env.alchemyKey),
        chainIdWarnings (reportedChainId networkName) chainId)
    else if p.startsWith "http" then
      if validRpcUrl p then
        (.ok (Provider.jsonRpc p), chainIdWarnings none chainId)
      else
        (.error (handleProviderError (plainError (invalidRpcUrlMsg p))
          ("create provider with RPC URL " ++ p) none), [])
    else
      (.error (invalidProviderMsg defaults p), [])

/-- DEFAULT_PROVIDERS of src/services/ethersService.ts:13-21. -/
def DEFAULT_PROVIDERS : List String :=
  ["mainnet", "sepolia", "goerli", "arbitrum", "optimism", "base", "polygon"]

/-- createInfuraProvider (src/services/ethersService.ts:41-47):
getInfuraApiKey throws when INFURA_API_KEY is absent, and the catch
wraps that error through handleProviderError. -/
def createInfuraProvider (env : Env) (network : String) : Except String Provider :=
  match env.infuraKey with
  | some k => .ok (Provider.infura network k)
  | none =>
    .error (handleProviderError
      (plainError "Missing INFURA_API_KEY in environment variables.")
      ("create Infura provider for network " ++ network) none)

/-- getProvider of src/services/ethersService.ts:86-115: default on an
absent identifier; a supported name goes through createInfuraProvider
(whose failure is wrapped once more by the surrounding catch); an
http-prefixed identifier is URL-validated and opened directly; anything
else throws the invalid-provider message listing the supported
names. -/
def getProviderInfura (env : Env) (defaultProv : Provider) (provider : Option String) :
    Except String Provider :=
  match provider with
  | none => .ok defaultProv
  | some p =>
    if p ∈ DEFAULT_PROVIDERS then
      match createInfuraProvider env p with
      | .ok pr => .ok pr
      | .error e =>
        .error (handleProviderError (plainError e)
          ("create Infura provider for network " ++ p) none)
    else if p.startsWith "http" then
      if validRpcUrl p then .ok (Provider.jsonRpc p)
      else
        .error (handleProviderError (plainError (invalidRpcUrlMsg p))
          ("create provider with RPC URL " ++ p) none)
    else
      .error (invalidProviderMsg DEFAULT_PROVIDERS p)

/-! ## Signer resolution -/

/-- A transaction-signing credential: a Wallet built from a private key
and bound to a connection, or a caller-provided signer object carrying
whatever connection it was built with. -/
inductive Signer where
  | wallet : String → Provider → Signer
  | external : Nat → Option Provider → Signer
deriving DecidableEq

/-- The connection a credential is bound to. -/
def Signer.boundProvider : Signer → Option Provider
  | .wallet _ p => some p
  | .external _ p => p

/-- The missing-key message of getSigner (src/index.ts:341). -/
def missingPrivateKeyMsg : String :=
  "Missing PRIVATE_KEY in environment variables. Either provide a signer in the constructor or set PRIVATE_KEY in environment variables."

/-- getSigner (src/index.ts:330-345): an explicit override is returned
as it is; otherwise the instance signer is returned as it is; otherwise
PRIVATE_KEY must be configured or the missing-key error is thrown, and
a Wallet is built on the connection resolved for the same identifier
and hint. Only this last branch consults provider resolution. -/
def getSigner (defaults : List String) (reportedChainId : String → Option Nat)
    (env : Env) (instProvider : Provider) (instSigner : Option Signer)
    (provider : Option String) (chainId : Option Nat)
    (signerOverride : Option Signer) : Except String Signer :=
  match signerOverride with
  | some s => .ok s
  | none =>
    match instSigner with
    | some s => .ok s
    | none =>
      match env.privateKey with
      | none => .error missingPrivateKeyMsg
      | some k =>
        match (getProviderAlchemy defaults reportedChainId env instProvider
            provider chainId).1 with
        | .ok p => .ok (Signer.wallet k p)
        | .error e => .error e

/-! ## Address validation and the operations that gate on it -/

/-- addressSchema (src/index.ts:21): the anchored regex
`^0x[a-fA-F0-9]\x7b40\x7d$` - literal 0x followed by exactly forty
hexadecimal characters. True exactly when z.parse succeeds. -/
def addressSchemaCheck (s : String) : Bool :=
  match s.data with
  | '0' :: 'x' :: rest => rest.length = 40 && rest.all isHexC
  | _ => false

/-- The shape the spec states for AddressValue: the text 0x followed by
exactly 40 hexadecimal characters. -/
def validAddressShape (s : String) : Prop :=
  ∃ t : List Char, s.data = '0' :: 'x' :: t ∧ t.length = 40 ∧ ∀ c ∈ t, isHexC c = true

/-- getBalance (src/index.ts:166-175): addressSchema.parse first (its
ZodError is caught and normalized with zero provider methods invoked),
then provider resolution (whose failure is also caught before any
network call), then one provider.getBalance invocation whose result is
rendered by formatEther. `balanceOf` is the network oracle; the second
component counts provider method invocations. -/
def getBalance (defaults : List String) (reportedChainId : String → Option Nat)
    (env : Env) (instProvider : Provider)
    (address : String) (provider : Option String) (chainId : Option Nat)
    (balanceOf : Provider → String → Int) : Except String String × Nat :=
  if addressSchemaCheck address = false then
    (.error (handleProviderError zodAddressError "fetch balance"
      (some [("address", JSValue.str address)])), 0)
  else
    match (getProviderAlchemy defaults reportedChainId env instProvider
        provider chainId).1 with
    | .error e =>
      (.error (handleProviderError (plainError e) "fetch balance"
        (some [("address", JSValue.str address)])), 0)
    | .ok p =>
      match formatEtherM (balanceOf p address) with
      | some s => (.ok s, 1)
      | none =>
        (.error (handleProviderError (plainError "overflow") "fetch balance"
          (some [("address", JSValue.str address)])), 1)

/-- The details record contractCallView hands to the error normalizer
(src/index.ts:512-517). -/
def callViewDetails (contractAddress : String) (args : List JSValue) :
    Option (List (String × JSValue)) :=
  some [("contractAddress", JSValue.str contractAddress),
    ("args", JSValue.str (serializeValue (JSValue.arr args)))]

/-- contractCallView (src/index.ts:469-518): address validation first,
then provider resolution, then the parsed ABI is consulted for the
method (`iface` maps a method name to its stateMutability; a method
absent from it fails before any call), a mutable method is rejected
with the wrong-call-kind error, and a view or pure method performs one
staticCall whose result is returned through serializeEventArgs.
`callResult` is the network oracle for that staticCall; the second
component counts provider method invocations. The fragment.constant
test of the source is a v5 leftover that is undefined (falsy) on every
v6 fragment and is not modelled. -/
def contractCallView (defaults : List String) (reportedChainId : String → Option Nat)
    (env : Env) (instProvider : Provider)
    (contractAddress : String) (iface : List (String × String)) (method : String)
    (args : List JSValue) (provider : Option String) (chainId : Option Nat)
    (callResult : JSValue) : Except String JSValue × Nat :=
  if addressSchemaCheck contractAddress = false then
    (.error (handleProviderError zodAddressError
      ("call contract view method: " ++ method) (callViewDetails contractAddress args)), 0)
  else
    match (getProviderAlchemy defaults reportedChainId env instProvider
        provider chainId).1 with
    | .error e =>
      (.error (handleProviderError (plainError e)
        ("call contract view method: " ++ method) (callViewDetails contractAddress args)), 0)
    | .ok _ =>
      match iface.find? (fun fr => fr.1 = method) with
      | none =>
        (.error (handleProviderError
          (plainError ("Method " ++ method ++ " not found in contract ABI"))
          ("call contract view method: " ++ method)
          (callViewDetails contractAddress args)), 0)
      | some fr =>
        if fr.2 = "view" ∨ fr.2 = "pure" then
          (.ok (serializeEventArgs callResult), 1)
        else
          (.error (handleProviderError
            (plainError ("Use contractSendTransaction for state-changing function: "
              ++ method))
            ("call contract view method: " ++ method)
            (callViewDetails contractAddress args)), 0)

/-! ## Transaction construction and override merging -/

/-- Caller-supplied transaction overrides (the ethers Overrides object
as the write operations use it): a field set to none is absent from
the object. -/
structure Overrides where
  gasLimit : Option Int := none
  gasPrice : Option Int := none
  maxFeePerGas : Option Int := none
  maxPriorityFeePerGas : Option Int := none
  nonce : Option Int := none
  value : Option Int := none
deriving DecidableEq

/-- A transaction request as submitted to signer.sendTransaction (the
destination field `to` of the source is `toAddr` here, `to` being a
reserved word in Lean). -/
structure TxRequest where
  toAddr : String
  data : String
  gasLimit : Option Int := none
  gasPrice : Option Int := none
  maxFeePerGas : Option Int := none
  maxPriorityFeePerGas : Option Int := none
  nonce : Option Int := none
  value : Option Int := none
deriving DecidableEq

/-- JavaScript object spread of an overrides object over a base record:
each field present in the overrides overwrites the base field. -/
def spreadOver (base : TxRequest) (ov : Overrides) : TxRequest :=
  { base with
    gasLimit := match ov.gasLimit with | some x => some x | none => base.gasLimit
    gasPrice := match ov.gasPrice with | some x => some x | none => base.gasPrice
    maxFeePerGas :=
      match ov.maxFeePerGas with | some x => some x | none => base.maxFeePerGas
    maxPriorityFeePerGas :=
      match ov.maxPriorityFeePerGas with
      | some x => some x
      | none => base.maxPriorityFeePerGas
    nonce := match ov.nonce with | some x => some x | none => base.nonce
    value := match ov.value with | some x => some x | none => base.value }

/-- The transaction request contractSendTransaction builds
(src/index.ts:651-656): `\x7b to, data, value: parsedValue,
...overrides \x7d` - the caller overrides are spread after the value
field, so each override field present, the value included, overwrites
the base. -/
def contractSendTransactionTx (toAddr data : String) (parsedValue : Int)
    (ov : Overrides) : TxRequest :=
  spreadOver { toAddr := toAddr, data := data, value := some parsedValue } ov

/-- The merged overrides contractCallWithOverrides (src/index.ts:603-606)
and contractSendTransactionWithOverrides (src/index.ts:736-739) build:
`\x7b ...overrides, value: parsedValue \x7d` - value is written after
the spread and always holds the recomputed conversion. -/
def withOverridesMerge (parsedValue : Int) (ov : Overrides) : Overrides :=
  { ov with value := some parsedValue }

/-- The transaction the ethers contract method call submits for the two
WithOverrides operations: the encoded call with every field taken from
the merged overrides object. -/
def withOverridesTx (toAddr data : String) (txOverrides : Overrides) : TxRequest :=
  { toAddr := toAddr, data := data, gasLimit := txOverrides.gasLimit,
    gasPrice := txOverrides.gasPrice, maxFeePerGas := txOverrides.maxFeePerGas,
    maxPriorityFeePerGas := txOverrides.maxPriorityFeePerGas,
    nonce := txOverrides.nonce, value := txOverrides.value }

/-! ## Event formatting and querying -/

/-- A raw or decoded log record as the provider returns it. -/
structure LogEntry where
  address : String
  blockNumber : Option Nat
  transactionHash : String
  index : Nat
  eventName : Option String
  args : Option JSValue
  data : String
  topics : List String

/-- The plain record formatEvent returns. -/
structure FormattedEvent where
  address : String
  blockNumber : Option String
  transactionHash : String
  logIndex : Nat
  name : Option String
  args : Option JSValue
  data : String
  topics : List String

/-- formatEvent (src/index.ts:769-781): field-for-field copy,
blockNumber rendered by toString when present, args passed through
serializeEventArgs when the log carries them. -/
def formatEvent (log : LogEntry) : FormattedEvent :=
  { address := log.address
    blockNumber := log.blockNumber.map (fun n => String.mk (natDChars n))
    transactionHash := log.transactionHash
    logIndex := log.index
    name := log.eventName
    args := log.args.map serializeEventArgs
    data := log.data
    topics := log.topics }

/-- One entry of the topic filter array
(Array<string | null | Array<string>>). -/
inductive TopicF where
  | one : String → TopicF
  | anyOf : List String → TopicF
  | nullt : TopicF
deriving DecidableEq

/-- contractEvents (src/index.ts:837-915) for a present event name:
the interface is consulted for the event (`iface` maps an event name to
its topic hash; an absent name throws before any log fetch), the topic
hash is prepended to the caller topics, queryLogs fetches once with
that filter, and each fetched record is decoded individually - a record
whose parseLog throws is returned raw, the others carry the parsed name
and serialized args. Without an event name the caller topics are used
as they are. `fetchLogs` is the network oracle behind queryLogs;
`parseLog` the interface decoder; the second component is the trace of
fetch filters used (its length is the number of log fetches). -/
def contractEvents (iface : List (String × String)) (eventName : Option String)
    (topics : List TopicF)
    (fetchLogs : List TopicF → List FormattedEvent)
    (parseLog : FormattedEvent → Option (String × JSValue)) :
    Except String (List FormattedEvent) × List (List TopicF) :=
  match eventName with
  | none => (.ok (fetchLogs topics), [topics])
  | some name =>
    match iface.find? (fun ev => ev.1 = name) with
    | none =>
      (.error (handleProviderError
        (plainError ("Event " ++ name ++ " not found in contract ABI"))
        "query contract events" none), [])
    | some ev =>
      (.ok ((fetchLogs (TopicF.one ev.2 :: topics)).map (fun log =>
        match parseLog log with
        | some p => { log with name := some p.1, args := some (serializeEventArgs p.2) }
        | none => log)), [TopicF.one ev.2 :: topics])

/-! ## Claim theorems -/

/-- Claim C7: serializeValue is total and precision-preserving - it is
a total function (every value yields one string, no case raises), it
maps undefined to "undefined", null to "null", an arbitrary-precision
integer to its exact decimal text (all digit characters whose decimal
value is the integer, a minus-prefixed digit string for a negative
one), an array to the bracketed comma-joined recursive serialization of
its elements, and a nested structure containing 10^30 renders the exact
digit string 1000000000000000000000000000000. -/
theorem serializeValue_total_exact :
    serializeValue JSValue.undef = "undefined" ∧
    serializeValue JSValue.nullv = "null" ∧
    (∀ n : Nat, (serializeValue (JSValue.big (n : Int))).data.all isDigitC = true ∧
      digitsVal (serializeValue (JSValue.big (n : Int))).data = n) ∧
    (∀ i : Int, i < 0 →
      (serializeValue (JSValue.big i)).data = '-' :: natDChars i.natAbs) ∧
    (∀ xs, serializeValue (JSValue.arr xs) =
      "[" ++ String.intercalate ", " (xs.map serializeValue) ++ "]") ∧
    serializeValue (JSValue.arr [JSValue.big ((10 : Int) ^ 30)]) =
      "[1000000000000000000000000000000]" := by
  refine ⟨rfl, rfl, ?_, ?_, ?_, by decide⟩
  · intro n
    have hnn : ¬ ((n : Int) < 0) := not_lt.mpr (Int.natCast_nonneg n)
    constructor
    · show (intDecimal (n : Int)).data.all isDigitC = true
      unfold intDecimal
      rw [if_neg hnn, data_mk, Int.natAbs_ofNat]
      exact List.all_eq_true.mpr (natDChars_all_digits n)
    · show digitsVal (intDecimal (n : Int)).data = n
      unfold intDecimal
      rw [if_neg hnn, data_mk, Int.natAbs_ofNat, natDChars_val]
  · intro i hi
    show (intDecimal i).data = '-' :: natDChars i.natAbs
    unfold intDecimal
    rw [if_pos hi, data_mk]
  · intro xs
    show "[" ++ String.intercalate ", " (serializeValueList xs) ++ "]" = _
    rw [serializeValueList_eq_map]

/-- Claim C6: handleProviderError classifies in a fixed order and
raises exactly one error in every branch (the embedding is a total
function onto that error's message): a schema validation failure
produces a message beginning "Invalid input format: " followed by the
first violation; otherwise an Error carrying a code property produces
"Failed to <context>: Provider error: <message>"; otherwise the generic
"Failed to <context>: <message>" with the optional " Details: k=v, ..."
suffix built by serializing each detail value. -/
theorem handleProviderError_classification :
    (∀ e ctx det m, e.isZodError = true → e.zodIssues.head? = some m → m ≠ "" →
      ∃ rest, handleProviderError e ctx det = ("Invalid input format: " ++ m) ++ rest) ∧
    (∀ e ctx det, e.isZodError = false → e.isErrorInstance = true →
      e.hasCodeProp = true →
      handleProviderError e ctx det =
        "Failed to " ++ ctx ++ ": Provider error: " ++ e.message) ∧
    (∀ e ctx det, e.isZodError = false → (e.isErrorInstance && e.hasCodeProp) = false →
      e.message ≠ "" →
      handleProviderError e ctx det =
        "Failed to " ++ ctx ++ ": " ++ e.message ++ detailsSuffix det) ∧
    detailsSuffix none = "" ∧
    (∀ kvs, detailsSuffix (some kvs) =
      " Details: " ++
        String.intercalate ", "
          (kvs.map (fun kv => kv.1 ++ "=" ++ serializeValue kv.2))) := by
  refine ⟨?_, ?_, ?_, rfl, fun _ => rfl⟩
  · intro e ctx det m hz hm hne
    refine ⟨zodExpectedSuffix, ?_⟩
    unfold handleProviderError
    rw [if_pos hz, hm]
    simp only [Option.getD_some]
    rw [if_neg hne]
  · intro e ctx det hz hi hc
    unfold handleProviderError
    rw [if_neg (by simp [hz]), if_pos (by simp [hi, hc])]
  · intro e ctx det hz hcode hmsg
    unfold handleProviderError
    rw [if_neg (by simp [hz]), if_neg (by simp [hcode]), if_neg hmsg]

/-- Claim C10: every contractCallView result and every decoded event
args object is post-processed by serializeEventArgs, which replaces
every arbitrary-precision integer with its decimal string, maps arrays
recursively, and silently removes every object entry keyed
_isBigNumber, type or hash - such a field is absent from the returned
structure. -/
theorem serializeEventArgs_postprocessing :
    (∀ fs t k, droppedKey k = true →
      objLookup (serializeEventArgs (JSValue.obj fs t)) k = none) ∧
    (∀ i : Int, serializeEventArgs (JSValue.big i) = JSValue.str (intDecimal i)) ∧
    (∀ xs, serializeEventArgs (JSValue.arr xs) =
      JSValue.arr (xs.map serializeEventArgs)) ∧
    (∀ defaults rc env inst addr iface method args r fr,
      addressSchemaCheck addr = true →
      iface.find? (fun p => p.1 = method) = some fr →
      (fr.2 = "view" ∨ fr.2 = "pure") →
      contractCallView defaults rc env inst addr iface method args none none r =
        (.ok (serializeEventArgs r), 1)) ∧
    (∀ log a, log.args = some a →
      (formatEvent log).args = some (serializeEventArgs a)) := by
  refine ⟨?_, fun _ => rfl, ?_, ?_, ?_⟩
  · intro fs t k hk
    show ((serializeEventArgsFields fs).find? (fun kv => kv.1 = k)).map _ = none
    rw [serializeEventArgsFields_find_dropped fs k hk]
    rfl
  · intro xs
    show JSValue.arr (serializeEventArgsList xs) = _
    rw [serializeEventArgsList_eq_map]
  · intro defaults rc env inst addr iface method args r fr hcheck hfind hmut
    unfold contractCallView
    rw [if_neg (by simp [hcheck])]
    have hprov : (getProviderAlchemy defaults rc env inst none none).1 =
        (Except.ok inst : Except String Provider) := rfl
    rw [hprov, hfind]
    rcases hmut with h | h <;> simp [h]
  · intro log a ha
    show log.args.map serializeEventArgs = some (serializeEventArgs a)
    rw [ha]
    rfl

/-- Claim C8: contractEvents with an event name resolves the name to
its topic hash and prepends it to the caller topic filter before the
single log fetch; a name absent from the interface fails with zero log
fetches; and a fetched record whose individual decoding fails is
returned raw in the result sequence while every other record is
decoded, the result keeping one entry per fetched record. -/
theorem contractEvents_topic_and_tolerance :
    (∀ iface name topics fetch parseL ev,
      iface.find? (fun e => e.1 = name) = some ev →
      contractEvents iface (some name) topics fetch parseL =
        (.ok ((fetch (TopicF.one ev.2 :: topics)).map (fun log =>
          match parseL log with
          | some p =>
            { log with name := some p.1, args := some (serializeEventArgs p.2) }
          | none => log)), [TopicF.one ev.2 :: topics])) ∧
    (∀ iface name topics fetch parseL,
      iface.find? (fun e => e.1 = name) = none →
      (contractEvents iface (some name) topics fetch parseL).2 = [] ∧
      ∃ msg, (contractEvents iface (some name) topics fetch parseL).1 = .error msg) ∧
    (∀ iface name topics fetch parseL ev res,
      iface.find? (fun e => e.1 = name) = some ev →
      (contractEvents iface (some name) topics fetch parseL).1 = .ok res →
      res.length = (fetch (TopicF.one ev.2 :: topics)).length ∧
      ∀ log ∈ fetch (TopicF.one ev.2 :: topics), parseL log = none → log ∈ res) := by
  have hmain : ∀ iface name topics
      (fetch : List TopicF → List FormattedEvent)
      (parseL : FormattedEvent → Option (String × JSValue)) ev,
      iface.find? (fun e => e.1 = name) = some ev →
      contractEvents iface (some name) topics fetch parseL =
        (.ok ((fetch (TopicF.one ev.2 :: topics)).map (fun log =>
          match parseL log with
          | some p =>
            { log with name := some p.1, args := some (serializeEventArgs p.2) }
          | none => log)), [TopicF.one ev.2 :: topics]) := by
    intro iface name topics fetch parseL ev hfind
    simp only [contractEvents]
    rw [hfind]
  refine ⟨hmain, ?_, ?_⟩
  · intro iface name topics fetch parseL hfind
    simp only [contractEvents]
    rw [hfind]
    exact ⟨rfl, ⟨_, rfl⟩⟩
  · intro iface name topics fetch parseL ev res hfind hres
    rw [hmain iface name topics fetch parseL ev hfind] at hres
    have hres2 : res = (fetch (TopicF.one ev.2 :: topics)).map (fun log =>
        match parseL log with
        | some p =>
          { log with name := some p.1, args := some (serializeEventArgs p.2) }
        | none => log) := by
      injection hres with h
      exact h.symm
    subst hres2
    refine ⟨List.length_map _ _, ?_⟩
    intro log hmem hparse
    refine List.mem_map.mpr ⟨log, hmem, ?_⟩
    rw [hparse]

/-- Claim C2: address validation accepts exactly the strings of the
form 0x followed by forty hexadecimal characters, and an operation
given any other string fails with the validation-error message before
any provider method is invoked - the network-call count is zero (shown
for getBalance and contractCallView, the operations whose oracles count
provider method invocations). -/
theorem address_validation_gate :
    (∀ s, addressSchemaCheck s = true ↔ validAddressShape s) ∧
    (∀ defaults rc env inst s provider chainId balanceOf,
      ¬ validAddressShape s →
      getBalance defaults rc env inst s provider chainId balanceOf =
        (.error ("Invalid input format: Invalid" ++ zodExpectedSuffix), 0)) ∧
    (∀ defaults rc env inst s iface method args provider chainId r,
      ¬ validAddressShape s →
      (contractCallView defaults rc env inst s iface method
          args provider chainId r).2 = 0 ∧
      ∃ rest, (contractCallView defaults rc env inst s iface method
          args provider chainId r).1 = .error ("Invalid input format: " ++ rest)) := by
  have hiff : ∀ s, addressSchemaCheck s = true ↔ validAddressShape s := by
    intro s
    unfold addressSchemaCheck validAddressShape
    generalize s.data = l
    constructor
    · intro h
      split at h
      · next rest =>
        rw [Bool.and_eq_true] at h
        exact ⟨rest, rfl, of_decide_eq_true h.1, List.all_eq_true.mp h.2⟩
      · exact absurd h (by decide)
    · rintro ⟨t, rfl, hlen, hhex⟩
      simp [hlen, List.all_eq_true.mpr hhex]
  have hfalse : ∀ s, ¬ validAddressShape s → addressSchemaCheck s = false := by
    intro s hshape
    cases hb : addressSchemaCheck s with
    | false => rfl
    | true => exact absurd ((hiff s).mp hb) hshape
  refine ⟨hiff, ?_, ?_⟩
  · intro defaults rc env inst s provider chainId balanceOf hshape
    unfold getBalance
    rw [hfalse s hshape]
    rfl
  · intro defaults rc env inst s iface method args provider chainId r hshape
    unfold contractCallView
    rw [hfalse s hshape]
    exact ⟨rfl, ⟨"Invalid" ++ zodExpectedSuffix, rfl⟩⟩

/-- Claim C1 (amended): in contractCallWithOverrides and
contractSendTransactionWithOverrides the value field of the submitted
transaction always equals the exact minimal-unit conversion of the
decimal value string (the overrides are spread first, so a caller
overrides.value entry never survives the merge); in
contractSendTransaction the overrides are spread after the value field,
so an overrides object carrying its own value entry determines the
submitted value, and the recomputed conversion is used only when the
overrides carry none. -/
theorem overrides_value_merge :
    (∀ (toA dat s : String) (pv : Int) (ov : Overrides),
      parseEtherM s = some pv →
      (withOverridesTx toA dat (withOverridesMerge pv ov)).value = some pv) ∧
    (∀ (toA dat s : String) (pv : Int) (ov : Overrides),
      parseEtherM s = some pv → ov.value = none →
      (contractSendTransactionTx toA dat pv ov).value = some pv) ∧
    (∀ (toA dat : String) (pv x : Int) (ov : Overrides),
      ov.value = some x →
      (contractSendTransactionTx toA dat pv ov).value = some x) := by
  refine ⟨?_, ?_, ?_⟩
  · intro toA dat s pv ov _
    rfl
  · intro toA dat s pv ov _ hov
    show (match ov.value with | some x => some x | none => some pv) = some pv
    rw [hov]
  · intro toA dat pv x ov hov
    show (match ov.value with | some x => some x | none => some pv) = some x
    rw [hov]

/-- Claim C1, counterexample: in contractSendTransaction an overrides
object carrying value 5 determines the submitted value, although the
exact minimal-unit conversion of the decimal parameter "1" is 10^18 -
the overrides spread (src/index.ts:651-656) comes after the value
field. -/
theorem sendTransaction_value_from_overrides_cex :
    parseEtherM "1" = some ((10 : Int) ^ 18) ∧
    (contractSendTransactionTx "0x0000000000000000000000000000000000000001" "0x"
      ((10 : Int) ^ 18) { value := some 5 }).value = some 5 ∧
    (some (5 : Int)) ≠ some ((10 : Int) ^ 18) := by
  refine ⟨by decide, rfl, by decide⟩

/-- Claim C9 (amended): the conversion path is exact integer
fixed-point arithmetic, and the round trip holds at the value level -
for every precision in the set 0, 6, 8, 18 and every representable
minimal-unit value (zero and the width-512 maximum included),
formatting to a decimal string and parsing back reproduces the value
exactly. The string-level direction reproduces the canonical rendering
of the same amount rather than the input text verbatim. -/
theorem unit_conversion_roundTrip (d v : Nat)
    (_hd : d = 0 ∨ d = 6 ∨ d = 8 ∨ d = 18) (hv : v < 2 ^ 511) :
    (formatUnitsCore (v : Int) d).bind (fun s => parseUnitsCore s d) = some (v : Int) :=
  formatUnits_parseUnits_exact d v hv

/-- Claim C9, witness: the round trip at the maximum representable
value for 18 decimals and at zero for 6 decimals. -/
theorem unit_conversion_roundTrip_witness :
    (formatUnitsCore ((2 ^ 511 - 1 : Nat) : Int) 18).bind
      (fun s => parseUnitsCore s 18) = some ((2 ^ 511 - 1 : Nat) : Int) ∧
    (formatUnitsCore ((0 : Nat) : Int) 6).bind
      (fun s => parseUnitsCore s 6) = some ((0 : Nat) : Int) :=
  ⟨unit_conversion_roundTrip 18 (2 ^ 511 - 1)
      (Or.inr (Or.inr (Or.inr rfl))) (by norm_num),
    unit_conversion_roundTrip 6 0 (Or.inr (Or.inl rfl)) (by positivity)⟩

/-- Claim C9, counterexample: the representable decimal string "1" at
precision 18 parses to exactly 10^18 minimal units, but formatting back
yields the canonical "1.0" rather than "1" - the string-level round
trip of the claim fails. -/
theorem unit_conversion_string_roundTrip_cex :
    parseUnitsCore "1" 18 = some ((10 : Int) ^ 18) ∧
    (parseUnitsCore "1" 18).bind (fun v => formatUnitsCore v 18) = some "1.0" ∧
    ("1.0" : String) ≠ "1" := ⟨by decide, by decide, by decide⟩

theorem str_ne_empty_of_length (s : String) (h : s.length ≠ 0) : s ≠ "" := by
  intro he
  rw [he] at h
  exact h rfl

theorem failedTo_ne_empty (ctx msg : String) :
    "Failed to " ++ ctx ++ ": " ++ msg ≠ "" := by
  apply str_ne_empty_of_length
  simp only [String.length_append]
  have e1 : ("Failed to " : String).length = 10 := rfl
  omega

theorem invalidRpcUrlMsg_ne_empty (url : String) : invalidRpcUrlMsg url ≠ "" := by
  apply str_ne_empty_of_length
  unfold invalidRpcUrlMsg
  simp only [String.length_append]
  have e1 : ("Invalid RPC URL format: " : String).length = 24 := rfl
  omega

/-- The generic branch of handleProviderError on a plain Error with no
details. -/
theorem handle_plain (msg ctx : String) (h : msg ≠ "") :
    handleProviderError (plainError msg) ctx none =
      "Failed to " ++ ctx ++ ": " ++ msg := by
  unfold handleProviderError plainError detailsSuffix
  simp [h]

theorem chainIdWarnings_none_reported (c : Option Nat) :
    chainIdWarnings none c = [] := by
  unfold chainIdWarnings
  cases c with
  | none => rfl
  | some cc => by_cases h : cc ≠ 0 <;> simp [h]

/-- createInfuraProvider with the key absent: the wrapped
missing-credential error. -/
theorem infura_missing_key (env : Env) (p : String) (hkey : env.infuraKey = none) :
    createInfuraProvider env p =
      .error ("Failed to " ++ ("create Infura provider for network " ++ p) ++ ": " ++
        "Missing INFURA_API_KEY in environment variables.") := by
  unfold createInfuraProvider
  rw [hkey, handle_plain _ _ (by decide)]

/-- Claim C3 (amended): provider resolution performs the claimed case
analysis, with one divergence - in the Alchemy-based getProvider of
src/index.ts a recognized network name constructs the connection from
the environment API key without checking its presence, so the
missing-credential failure of the claim occurs only in the
Infura-based getProvider of src/services/ethersService.ts. An absent
identifier returns the preconfigured default; a supported name yields
the credentialed connection (the Infura path failing with the
missing-INFURA_API_KEY error when the key is absent, twice wrapped by
the normalizer); an identifier beginning with http is URL-validated,
opened directly on success and failed with the invalid-URL error
otherwise; and any other identifier fails with the invalid-provider
error whose text embeds the comma-joined supported network names. -/
theorem provider_resolution_cases :
    (∀ env inst, getProviderInfura env inst none = .ok inst) ∧
    (∀ defaults rc env inst c,
      getProviderAlchemy defaults rc env inst none c = (.ok inst, [])) ∧
    (∀ env inst p k, p ∈ DEFAULT_PROVIDERS → env.infuraKey = some k →
      getProviderInfura env inst (some p) = .ok (Provider.infura p k)) ∧
    (∀ env inst p, p ∈ DEFAULT_PROVIDERS → env.infuraKey = none →
      getProviderInfura env inst (some p) =
        .error ("Failed to " ++ ("create Infura provider for network " ++ p) ++ ": " ++
          ("Failed to " ++ ("create Infura provider for network " ++ p) ++ ": " ++
            "Missing INFURA_API_KEY in environment variables."))) ∧
    (∀ env inst p, p ∉ DEFAULT_PROVIDERS → p.startsWith "http" = true →
      validRpcUrl p = true →
      getProviderInfura env inst (some p) = .ok (Provider.jsonRpc p)) ∧
    (∀ env inst p, p ∉ DEFAULT_PROVIDERS → p.startsWith "http" = true →
      validRpcUrl p = false →
      getProviderInfura env inst (some p) =
        .error ("Failed to " ++ ("create provider with RPC URL " ++ p) ++ ": " ++
          invalidRpcUrlMsg p)) ∧
    (∀ env inst p, p ∉ DEFAULT_PROVIDERS → p.startsWith "http" = false →
      getProviderInfura env inst (some p) =
          .error (invalidProviderMsg DEFAULT_PROVIDERS p) ∧
        ∃ pre post, invalidProviderMsg DEFAULT_PROVIDERS p =
          pre ++ (String.intercalate ", " DEFAULT_PROVIDERS ++ post)) ∧
    (∀ defaults rc env inst p c, p ∈ defaults →
      (getProviderAlchemy defaults rc env inst (some p) c).1 =
        .ok (Provider.alchemy (getEthersNetworkName p) env.alchemyKey)) := by
  refine ⟨fun env inst => rfl, fun defaults rc env inst c => rfl, ?_, ?_, ?_, ?_, ?_, ?_⟩
  · intro env inst p k hmem hkey
    simp only [getProviderInfura]
    rw [if_pos hmem]
    simp only [createInfuraProvider]
    rw [hkey]
  · intro env inst p hmem hkey
    have hwrap := handle_plain
      ("Failed to " ++ ("create Infura provider for network " ++ p) ++ ": " ++
        "Missing INFURA_API_KEY in environment variables.")
      ("create Infura provider for network " ++ p) (failedTo_ne_empty _ _)
    simp only [getProviderInfura]
    rw [if_pos hmem, infura_missing_key env p hkey]
    simp only [hwrap]
  · intro env inst p hmem hhttp hvalid
    simp only [getProviderInfura]
    rw [if_neg hmem, if_pos hhttp, if_pos hvalid]
  · intro env inst p hmem hhttp hvalid
    simp only [getProviderInfura]
    rw [if_neg hmem, if_pos hhttp, if_neg (by simp [hvalid]),
      handle_plain _ _ (invalidRpcUrlMsg_ne_empty p)]
  · intro env inst p hmem hhttp
    constructor
    · simp only [getProviderInfura]
      rw [if_neg hmem, if_neg (by simp [hhttp])]
    · refine ⟨"Invalid provider: " ++ p ++ ". Must be either:\n" ++
        "1. A supported network name (",
        ")\n" ++ "2. A valid RPC URL starting with http:// or https://", ?_⟩
      unfold invalidProviderMsg
      simp [String.append_assoc]
  · intro defaults rc env inst p c hmem
    simp only [getProviderAlchemy]
    rw [if_pos hmem]

/-- Claim C3, counterexample: the Alchemy-based getProvider of
src/index.ts, given the supported network name "mainnet" with no
ALCHEMY_API_KEY in the environment, succeeds and returns the
constructed connection instead of failing with a missing-credential
error - the key is passed through unchecked (src/index.ts:129). -/
theorem alchemy_missing_key_cex :
    getProviderAlchemy ["mainnet"] (fun _ => none)
      { alchemyKey := none, infuraKey := none, privateKey := none }
      Provider.defaultProvider (some "mainnet") none =
      (.ok (Provider.alchemy "mainnet" none), []) := rfl

/-- Claim C4 (amended): signer resolution follows the precedence
explicit override, then instance-bound signer, then
environment-configured private key; when all three are absent it fails
with the error naming PRIVATE_KEY; and only the environment-key branch
builds a credential bound to the connection produced by provider
resolution for the same identifier and chain-id hint - an override or
instance signer is returned with the binding it already carries. -/
theorem signer_resolution_precedence :
    (∀ defaults rc env instP instS prov cid s,
      getSigner defaults rc env instP instS prov cid (some s) = .ok s) ∧
    (∀ defaults rc env instP prov cid s,
      getSigner defaults rc env instP (some s) prov cid none = .ok s) ∧
    (∀ defaults rc env instP prov cid, env.privateKey = none →
      getSigner defaults rc env instP none prov cid none =
          .error missingPrivateKeyMsg ∧
        ∃ pre post, missingPrivateKeyMsg = pre ++ ("PRIVATE_KEY" ++ post)) ∧
    (∀ defaults rc env instP prov cid k p, env.privateKey = some k →
      (getProviderAlchemy defaults rc env instP prov cid).1 = .ok p →
      getSigner defaults rc env instP none prov cid none = .ok (Signer.wallet k p) ∧
      (Signer.wallet k p).boundProvider = some p) := by
  refine ⟨fun _ _ _ _ _ _ _ _ => rfl, fun _ _ _ _ _ _ _ => rfl, ?_, ?_⟩
  · intro defaults rc env instP prov cid hkey
    constructor
    · simp only [getSigner]
      rw [hkey]
    · exact ⟨"Missing ",
        " in environment variables. Either provide a signer in the constructor or set PRIVATE_KEY in environment variables.",
        by decide⟩
  · intro defaults rc env instP prov cid k p hkey hprov
    refine ⟨?_, rfl⟩
    simp only [getSigner]
    rw [hkey, hprov]

/-- Claim C4, counterexample: an explicit signer override bound to one
connection is returned as it is even when the identifier resolves to a
different connection - getSigner (src/index.ts:330-345) never rebinds
an override or instance signer. -/
theorem signer_override_not_rebound_cex :
    (getProviderAlchemy ["mainnet"] (fun _ => none)
        { alchemyKey := none, infuraKey := none, privateKey := some "k" }
        Provider.defaultProvider (some "mainnet") none).1 =
      .ok (Provider.alchemy "mainnet" none) ∧
    getSigner ["mainnet"] (fun _ => none)
      { alchemyKey := none, infuraKey := none, privateKey := some "k" }
      Provider.defaultProvider none (some "mainnet") none
      (some (Signer.external 0 (some (Provider.jsonRpc "http://a")))) =
      .ok (Signer.external 0 (some (Provider.jsonRpc "http://a"))) ∧
    (Signer.external 0 (some (Provider.jsonRpc "http://a"))).boundProvider ≠
      some (Provider.alchemy "mainnet" none) := by
  refine ⟨rfl, rfl, by decide⟩

/-- Claim C5 (amended): for every supported network name and every
nonzero chain-id hint that differs from the chain id the constructed
connection reports, resolution succeeds, returns the connection built
from the network name alone (the hint never overrides it), and records
exactly one mismatch warning rather than raising an error; and a
warning is recorded only in that situation - whenever resolution emits
any warning, it succeeded, the hint was a nonzero value, and the
warning is the single chain-id mismatch against the reported id. A
hint of 0 is falsy in JavaScript and skips the check entirely. -/
theorem chainId_hint_mismatch_warning :
    (∀ defaults rc env inst (p : String) (c a : Nat),
      p ∈ defaults → c ≠ 0 → rc (getEthersNetworkName p) = some a → a ≠ 0 → a ≠ c →
      getProviderAlchemy defaults rc env inst (some p) (some c) =
        (.ok (Provider.alchemy (getEthersNetworkName p) env.alchemyKey),
          [Warning.chainIdMismatch c a])) ∧
    (∀ defaults rc env inst p c,
      (getProviderAlchemy defaults rc env inst p c).2 ≠ [] →
      (∃ pr, (getProviderAlchemy defaults rc env inst p c).1 = .ok pr) ∧
      ∃ cc a, c = some cc ∧ cc ≠ 0 ∧ a ≠ 0 ∧ a ≠ cc ∧
        (getProviderAlchemy defaults rc env inst p c).2 =
          [Warning.chainIdMismatch cc a]) := by
  constructor
  · intro defaults rc env inst p c a hmem hc hrc ha0 hac
    have hw : chainIdWarnings (rc (getEthersNetworkName p)) (some c) =
        [Warning.chainIdMismatch c a] := by
      simp [chainIdWarnings, hc, hrc, ha0, hac]
    simp only [getProviderAlchemy]
    rw [if_pos hmem, hw]
  · intro defaults rc env inst p c hne
    cases p with
    | none => simp [getProviderAlchemy] at hne
    | some p =>
      simp only [getProviderAlchemy] at hne ⊢
      by_cases hmem : p ∈ defaults
      · rw [if_pos hmem] at hne ⊢
        cases c with
        | none => simp [chainIdWarnings] at hne
        | some cc =>
          by_cases hc0 : cc ≠ 0
          · cases hrc : rc (getEthersNetworkName p) with
            | none =>
              rw [show chainIdWarnings (rc (getEthersNetworkName p)) (some cc) = []
                from by simp [chainIdWarnings, hc0, hrc]] at hne
              exact absurd rfl hne
            | some a =>
              by_cases hcond : a ≠ 0 ∧ a ≠ cc
              · refine ⟨⟨_, rfl⟩, cc, a, rfl, hc0, hcond.1, hcond.2, ?_⟩
                simp [chainIdWarnings, hc0, hrc, hcond.1, hcond.2]
              · rw [show chainIdWarnings (rc (getEthersNetworkName p)) (some cc) = []
                  from by
                    simp only [chainIdWarnings, hrc]
                    rw [if_pos hc0]
                    simp [hcond]] at hne
                exact absurd rfl hne
          · rw [show chainIdWarnings (rc (getEthersNetworkName p)) (some cc) = []
              from by simp [chainIdWarnings, hc0]] at hne
            exact absurd rfl hne
      · rw [if_neg hmem] at hne ⊢
        by_cases hhttp : p.startsWith "http"
        · rw [if_pos hhttp] at hne ⊢
          by_cases hvalid : validRpcUrl p
          · rw [if_pos hvalid] at hne ⊢
            rw [chainIdWarnings_none_reported] at hne
            exact absurd rfl hne
          · rw [if_neg (by simp [hvalid])] at hne
            exact absurd rfl hne
        · rw [if_neg (by simp [hhttp])] at hne
          exact absurd rfl hne

/-- Claim C5, counterexample: a chain-id hint of 0 differs from the
chain id 1 that the mainnet connection reports, yet resolution
succeeds, returns the mainnet connection, and records no mismatch
warning - the truthiness guard `if (chainId)` of src/index.ts:130
skips the check for the hint 0. -/
theorem chainId_hint_zero_cex :
    getProviderAlchemy ["mainnet"] (fun n => if n = "mainnet" then some 1 else none)
      { alchemyKey := none, infuraKey := none, privateKey := none }
      Provider.defaultProvider (some "mainnet") (some 0) =
      (.ok (Provider.alchemy "mainnet" none), []) ∧
    (0 : Nat) ≠ 1 := ⟨rfl, by decide⟩
